import Mathlib

/-!
Shallow embedding of the `CertificateNFT` registry contract
(contracts/CertificateNFT.sol of the EDU-Trust repository) and proofs of the
specification claims about it.

Modelling conventions:
* addresses are natural numbers, `0` standing for the zero address;
* `uint256` arithmetic is `Nat` with the Solidity 0.8 checked-overflow
  revert made explicit where the contract increments `_tokenIdCounter`;
* every external state-changing function is a Lean function
  `CState -> ... -> Except Err (CState × result)`; a Solidity `revert`
  is `Except.error`, and the EVM rollback of a reverted call is captured
  by `applyTx`, which keeps the pre-call state whenever the call errors;
* mappings are Lean functions with pointwise update;
* events are accumulated in an append-only `log` field, oldest first;
* role membership is a fixed table in the state (`grantRole` from the
  inherited AccessControl contract is outside the registry interface
  specified here, so no operation of `Op` modifies it);
* the inherited OpenZeppelin pieces that the contract actually exercises
  are inlined: `onlyRole` (revert `MissingRole`), `whenNotPaused`
  (revert `EnforcedPause`), `_pause`/`_unpause`, the `_safeMint` check
  that the token id is not already owned (`ERC721InvalidSender`), the
  `_setTokenURI` store, and `ERC721URIStorage.tokenURI`, which returns
  the stored per-token string because `CertificateNFT` never overrides
  `_baseURI()` (its `_baseTokenURI` field is written by `setBaseURI`
  but never read).
-/

namespace CertNFT

/-- Account address; `0` is the zero address. -/
abbrev Addr := Nat

/-- Largest value of a `uint256`. -/
def UINT256_MAX : Nat := 2 ^ 256 - 1

/-- `MAX_BATCH_SIZE` constant of the contract. -/
def MAX_BATCH_SIZE : Nat := 50

/-- The `CertificateType` enum: REGULAR=0, SEMESTER=1, ACHIEVEMENT=2, CUSTOM=3. -/
inductive CertificateType where
  | REGULAR
  | SEMESTER
  | ACHIEVEMENT
  | CUSTOM
deriving DecidableEq, Repr

/-- The roles checked by the contract (AccessControl role identifiers). -/
inductive Role where
  | DEFAULT_ADMIN
  | ADMIN
  | MINTER
  | VERIFIER
deriving DecidableEq, Repr

/-- Revert reasons: the custom errors declared by the contract plus the
errors of the inherited OpenZeppelin code paths it can hit. -/
inductive Err where
  | InvalidInput
  | Unauthorized
  | NotFound
  | AlreadyExists
  | Revoked
  | BatchLimit
  | LengthMismatch
  | MissingRole
  | EnforcedPause
  | ExpectedPause
  | ERC721InvalidSender
  | Panic
deriving DecidableEq, Repr

/-- The `CertificateConfig` struct stored per token. -/
structure CertificateConfig where
  certType : CertificateType
  isRevoked : Bool
  issuer : Addr
  issueDate : Nat
deriving DecidableEq, Repr

/-- The `SemesterParams` struct. -/
structure SemesterParams where
  serialNo : String
  memoNo : String
  regdNo : String
  branch : String
  examination : String
  sgpa : Nat
deriving DecidableEq, Repr

/-- The events emitted by the contract. -/
inductive Event where
  | CertificateIssued (tokenId : Nat) (student : Addr) (ipfsHash : String)
      (certType : CertificateType) (timestamp : Nat)
  | RegularCertDetails (id : Nat) (course : String) (grade : String)
  | SemesterCertDetails (id : Nat) (serialNo : String) (memoNo : String) (sgpa : Nat)
  | AchievementCertDetails (id : Nat) (title : String) (category : String)
  | CustomCertDetails (id : Nat) (templateId : String)
  | CertRevoked (tokenId : Nat) (admin : Addr)
  | CertVerified (tokenId : Nat) (verifier : Addr) (isValid : Bool)
deriving DecidableEq, Repr

/-- Contract storage.  `owners` is the ERC721 ownership mapping
(`_ownerOf`), `tokenURIs` the ERC721URIStorage per-token string map. -/
structure CState where
  tokenIdCounter : Nat
  owners : Nat → Addr
  tokenURIs : Nat → String
  certConfigs : Nat → CertificateConfig
  studentCertificates : Addr → List Nat
  usedHashes : String → Bool
  usedUniqueIdentifiers : String → Bool
  paused : Bool
  roles : Role → Addr → Bool
  baseTokenURI : String
  log : List Event

/-- State immediately after the constructor, deployed by `deployer`:
counter 0, all maps empty, unpaused, and the deployer granted
DEFAULT_ADMIN, ADMIN and MINTER as in the constructor body. -/
def initialState (deployer : Addr) : CState where
  tokenIdCounter := 0
  owners := fun _ => 0
  tokenURIs := fun _ => ""
  certConfigs := fun _ => ⟨.REGULAR, false, 0, 0⟩
  studentCertificates := fun _ => []
  usedHashes := fun _ => false
  usedUniqueIdentifiers := fun _ => false
  paused := false
  roles := fun r a =>
    (a = deployer) && (r = .DEFAULT_ADMIN || r = .ADMIN || r = .MINTER)
  baseTokenURI := ""
  log := []

/-- The state produced by a successful `_mintBase` step (the storage
writes of `_mintBase` plus the `_safeMint`/`_setTokenURI` writes). -/
def mintedState (s : CState) (caller now : Nat) (dest : Addr) (ipfsHash : String)
    (cType : CertificateType) : CState :=
  let tokenId := s.tokenIdCounter + 1
  { s with
    tokenIdCounter := tokenId
    owners := fun t => if t = tokenId then dest else s.owners t
    tokenURIs := fun t => if t = tokenId then ipfsHash else s.tokenURIs t
    certConfigs := fun t =>
      if t = tokenId then ⟨cType, false, caller, now⟩ else s.certConfigs t
    studentCertificates := fun a =>
      if a = dest then s.studentCertificates a ++ [tokenId]
      else s.studentCertificates a
    usedHashes := fun h => if h = ipfsHash then true else s.usedHashes h
    log := s.log ++ [.CertificateIssued tokenId dest ipfsHash cType now] }

/-- `_mintBase(to, ipfsHash, cType)` (the `to` parameter is named `dest` here since `to` is reserved): input validation, hash dedup,
counter increment (checked arithmetic), `_safeMint`, `_setTokenURI`,
config and owner-index writes, `CertificateIssued` emission. -/
def mintBase (s : CState) (caller now : Nat) (dest : Addr) (ipfsHash : String)
    (cType : CertificateType) : Except Err (CState × Nat) :=
  if dest = 0 then .error .InvalidInput
  else if ipfsHash = "" then .error .InvalidInput
  else if s.usedHashes ipfsHash then .error .AlreadyExists
  else if UINT256_MAX < s.tokenIdCounter + 1 then .error .Panic
  else if s.owners (s.tokenIdCounter + 1) ≠ 0 then .error .ERC721InvalidSender
  else .ok (mintedState s caller now dest ipfsHash cType, s.tokenIdCounter + 1)

/-- `mintCertificate(student, courseName, grade, ipfsHash)`:
`onlyRole(MINTER_ROLE) whenNotPaused`, `_mintBase` with REGULAR,
then `RegularCertDetails` emission. -/
def mintCertificate (s : CState) (caller now : Nat) (student : Addr)
    (courseName grade ipfsHash : String) : Except Err (CState × Nat) :=
  if s.roles .MINTER caller = false then .error .MissingRole
  else if s.paused then .error .EnforcedPause
  else
    match mintBase s caller now student ipfsHash .REGULAR with
    | .error e => .error e
    | .ok (s1, tid) =>
        .ok ({ s1 with log := s1.log ++ [.RegularCertDetails tid courseName grade] }, tid)

/-- The body of the `for` loop of `mintCertificatesBatch`: one
`_mintBase` plus one `RegularCertDetails` emission per index, in input
order.  The function is only entered after the caller has checked that
all four arrays have equal length; an uneven tail (unreachable from
`mintCertificatesBatch`) is mapped to the out-of-bounds revert. -/
def mintBatchLoop (caller now : Nat) : CState → List Addr → List String →
    List String → List String → Except Err CState
  | s, [], [], [], [] => .ok s
  | s, st :: sts, cn :: cns, g :: gs, h :: hs =>
      match mintBase s caller now st h .REGULAR with
      | .error e => .error e
      | .ok (s1, tid) =>
          mintBatchLoop caller now
            { s1 with log := s1.log ++ [.RegularCertDetails tid cn g] } sts cns gs hs
  | _, _, _, _, _ => .error .LengthMismatch

/-- `mintCertificatesBatch(students, courseNames, grades, ipfsHashes)`:
`onlyRole(MINTER_ROLE) whenNotPaused`, then
`if (len > MAX_BATCH_SIZE) revert BatchLimit()`, then the length
equality check (`LengthMismatch`), then the mint loop. -/
def mintCertificatesBatch (s : CState) (caller now : Nat) (students : List Addr)
    (courseNames grades ipfsHashes : List String) : Except Err CState :=
  if s.roles .MINTER caller = false then .error .MissingRole
  else if s.paused then .error .EnforcedPause
  else if MAX_BATCH_SIZE < students.length then .error .BatchLimit
  else if courseNames.length ≠ students.length ∨ grades.length ≠ students.length
      ∨ ipfsHashes.length ≠ students.length then .error .LengthMismatch
  else mintBatchLoop caller now s students courseNames grades ipfsHashes

/-- `mintSemesterCertificate(student, params, ipfsHash)`:
`onlyRole(MINTER_ROLE) whenNotPaused`, serial/memo dedup check,
`_mintBase` with SEMESTER, registration of both unique identifiers,
`SemesterCertDetails` emission. -/
def mintSemesterCertificate (s : CState) (caller now : Nat) (student : Addr)
    (params : SemesterParams) (ipfsHash : String) : Except Err (CState × Nat) :=
  if s.roles .MINTER caller = false then .error .MissingRole
  else if s.paused then .error .EnforcedPause
  else if s.usedUniqueIdentifiers params.serialNo
      || s.usedUniqueIdentifiers params.memoNo then .error .AlreadyExists
  else
    match mintBase s caller now student ipfsHash .SEMESTER with
    | .error e => .error e
    | .ok (s1, tid) =>
        .ok ({ s1 with
                usedUniqueIdentifiers := fun x =>
                  if x = params.serialNo then true
                  else if x = params.memoNo then true
                  else s1.usedUniqueIdentifiers x
                log := s1.log ++
                  [.SemesterCertDetails tid params.serialNo params.memoNo params.sgpa] },
              tid)

/-- `mintAchievementCertificate(student, title, category, ipfsHash, verifiers)`:
the `verifiers` array parameter is declared but unused in the body
(kept for API compatibility). -/
def mintAchievementCertificate (s : CState) (caller now : Nat) (student : Addr)
    (title category ipfsHash : String) (verifiers : List Addr) :
    Except Err (CState × Nat) :=
  if s.roles .MINTER caller = false then .error .MissingRole
  else if s.paused then .error .EnforcedPause
  else
    match mintBase s caller now student ipfsHash .ACHIEVEMENT with
    | .error e => .error e
    | .ok (s1, tid) =>
        .ok ({ s1 with log := s1.log ++ [.AchievementCertDetails tid title category] }, tid)

/-- `mintCustomCertificate(student, templateId, fieldNames, fieldValues, ipfsHash)`:
the field arrays are declared but unused in the body. -/
def mintCustomCertificate (s : CState) (caller now : Nat) (student : Addr)
    (templateId : String) (fieldNames fieldValues : List String)
    (ipfsHash : String) : Except Err (CState × Nat) :=
  if s.roles .MINTER caller = false then .error .MissingRole
  else if s.paused then .error .EnforcedPause
  else
    match mintBase s caller now student ipfsHash .CUSTOM with
    | .error e => .error e
    | .ok (s1, tid) =>
        .ok ({ s1 with log := s1.log ++ [.CustomCertDetails tid templateId] }, tid)

/-- `revokeCertificate(tokenId)`: `onlyRole(ADMIN_ROLE)` only — the
source has no `whenNotPaused` modifier on this function. -/
def revokeCertificate (s : CState) (caller : Addr) (tokenId : Nat) :
    Except Err CState :=
  if s.roles .ADMIN caller = false then .error .MissingRole
  else if s.owners tokenId = 0 then .error .NotFound
  else if (s.certConfigs tokenId).isRevoked then .error .Revoked
  else
    .ok { s with
           certConfigs := fun t =>
             if t = tokenId then { s.certConfigs tokenId with isRevoked := true }
             else s.certConfigs t
           log := s.log ++ [.CertRevoked tokenId caller] }

/-- `verifyCertificate(tokenId)`: a `view` function, hence a pure
function of the state.  `tokenURI(tokenId)` reduces to the stored
per-token string because `_baseURI()` is not overridden and returns
the empty string. -/
def verifyCertificate (s : CState) (tokenId : Nat) :
    Bool × String × CertificateType :=
  if s.owners tokenId = 0 then (false, "", .REGULAR)
  else
    let conf := s.certConfigs tokenId
    if conf.isRevoked then (false, "", conf.certType)
    else (true, s.tokenURIs tokenId, conf.certType)

/-- `verifyCertificateByVerifier(tokenId)`: `onlyRole(VERIFIER_ROLE)`,
reads `verifyCertificate` through an external self-call and emits a
`CertVerified` audit event. -/
def verifyCertificateByVerifier (s : CState) (caller : Addr) (tokenId : Nat) :
    Except Err (CState × (Bool × CertificateType)) :=
  if s.roles .VERIFIER caller = false then .error .MissingRole
  else
    let r := verifyCertificate s tokenId
    .ok ({ s with log := s.log ++ [.CertVerified tokenId caller r.1] }, (r.1, r.2.2))

/-- `getStudentCertificates(student)`: pure read of the owner index. -/
def getStudentCertificates (s : CState) (student : Addr) : List Nat :=
  s.studentCertificates student

/-- `pause()`: `onlyRole(ADMIN_ROLE)` then OpenZeppelin `_pause`,
which itself reverts `EnforcedPause` when already paused. -/
def pause (s : CState) (caller : Addr) : Except Err CState :=
  if s.roles .ADMIN caller = false then .error .MissingRole
  else if s.paused then .error .EnforcedPause
  else .ok { s with paused := true }

/-- `unpause()`: `onlyRole(ADMIN_ROLE)` then OpenZeppelin `_unpause`,
which reverts `ExpectedPause` when not paused. -/
def unpause (s : CState) (caller : Addr) : Except Err CState :=
  if s.roles .ADMIN caller = false then .error .MissingRole
  else if s.paused = false then .error .ExpectedPause
  else .ok { s with paused := false }

/-- `setBaseURI(baseURI)`: `onlyRole(ADMIN_ROLE)`; writes the (otherwise
unread) `_baseTokenURI` field. -/
def setBaseURI (s : CState) (caller : Addr) (baseURI : String) :
    Except Err CState :=
  if s.roles .ADMIN caller = false then .error .MissingRole
  else .ok { s with baseTokenURI := baseURI }

/-- One external state-changing call to the contract interface, with its
caller and block timestamp. -/
inductive Op where
  | mintCertificate (caller now : Nat) (student : Addr)
      (courseName grade ipfsHash : String)
  | mintCertificatesBatch (caller now : Nat) (students : List Addr)
      (courseNames grades ipfsHashes : List String)
  | mintSemesterCertificate (caller now : Nat) (student : Addr)
      (params : SemesterParams) (ipfsHash : String)
  | mintAchievementCertificate (caller now : Nat) (student : Addr)
      (title category ipfsHash : String) (verifiers : List Addr)
  | mintCustomCertificate (caller now : Nat) (student : Addr)
      (templateId : String) (fieldNames fieldValues : List String) (ipfsHash : String)
  | revokeCertificate (caller : Addr) (tokenId : Nat)
  | verifyCertificateByVerifier (caller : Addr) (tokenId : Nat)
  | pause (caller : Addr)
  | unpause (caller : Addr)
  | setBaseURI (caller : Addr) (baseURI : String)

/-- The state outcome of one call (return values dropped). -/
def stepState (s : CState) : Op → Except Err CState
  | .mintCertificate c now st cn g h =>
      (mintCertificate s c now st cn g h).map Prod.fst
  | .mintCertificatesBatch c now sts cns gs hs =>
      mintCertificatesBatch s c now sts cns gs hs
  | .mintSemesterCertificate c now st p h =>
      (mintSemesterCertificate s c now st p h).map Prod.fst
  | .mintAchievementCertificate c now st t cat h vs =>
      (mintAchievementCertificate s c now st t cat h vs).map Prod.fst
  | .mintCustomCertificate c now st tpl fns fvs h =>
      (mintCustomCertificate s c now st tpl fns fvs h).map Prod.fst
  | .revokeCertificate c t => revokeCertificate s c t
  | .verifyCertificateByVerifier c t =>
      (verifyCertificateByVerifier s c t).map Prod.fst
  | .pause c => pause s c
  | .unpause c => unpause s c
  | .setBaseURI c u => setBaseURI s c u

/-- Transaction semantics: a reverted call rolls the state back to the
pre-call state. -/
def applyTx (s : CState) (op : Op) : CState :=
  match stepState s op with
  | .ok s1 => s1
  | .error _ => s

/-- Run a sequence of calls, each one atomically committed or rolled back. -/
def execOps (s : CState) : List Op → CState
  | [] => s
  | op :: ops => execOps (applyTx s op) ops

/-- The token ids recorded by `CertificateIssued` events for `o`, oldest
first. -/
def issuedTo (log : List Event) (o : Addr) : List Nat :=
  log.filterMap fun e =>
    match e with
    | .CertificateIssued id st _ _ _ => if st = o then some id else none
    | _ => none

/-- All token ids recorded by `CertificateIssued` events, oldest first. -/
def issuedIds (log : List Event) : List Nat :=
  log.filterMap fun e =>
    match e with
    | .CertificateIssued id _ _ _ _ => some id
    | _ => none

/-- Whether an `Except` computation succeeded. -/
def succeeded {ε α : Type} : Except ε α → Bool
  | .ok _ => true
  | .error _ => false

/-- The owner index always lists, oldest first, exactly the token ids of
the `CertificateIssued` events for that owner. -/
def OwnerIdx (s : CState) : Prop :=
  ∀ o, s.studentCertificates o = issuedTo s.log o

/-- Facts about the storage that every contract call preserves: used
hashes and unique identifiers stay used, minted tokens stay minted,
revoked certificates stay revoked, and the id counter never decreases. -/
def Preserves (s s1 : CState) : Prop :=
  (∀ h, s.usedHashes h = true → s1.usedHashes h = true) ∧
  (∀ u, s.usedUniqueIdentifiers u = true → s1.usedUniqueIdentifiers u = true) ∧
  (∀ t, s.owners t ≠ 0 → s1.owners t ≠ 0) ∧
  (∀ t, s.owners t ≠ 0 → (s.certConfigs t).isRevoked = true →
    (s1.certConfigs t).isRevoked = true) ∧
  s.tokenIdCounter ≤ s1.tokenIdCounter

/-- The state after deploying from address 1 and minting one REGULAR
certificate with hash "H1" to student 2 (token id 1). -/
def postMint1 : CState :=
  { mintedState (initialState 1) 1 0 2 "H1" .REGULAR with
    log := (mintedState (initialState 1) 1 0 2 "H1" .REGULAR).log ++
      [.RegularCertDetails 1 "C" "A"] }

/-- `postMint1` after the admin revokes token 1. -/
def postRevoke1 : CState :=
  { postMint1 with
    certConfigs := fun u =>
      if u = 1 then { postMint1.certConfigs 1 with isRevoked := true }
      else postMint1.certConfigs u
    log := postMint1.log ++ [.CertRevoked 1 1] }

/-- Example semester parameters (serial "S1", memo "M1"). -/
def sp1 : SemesterParams := ⟨"S1", "M1", "R1", "B1", "E1", 900⟩

/-- Semester parameters reusing serial "S1" with a fresh memo. -/
def sp2 : SemesterParams := ⟨"S1", "M2", "R2", "B2", "E2", 800⟩

/-- The state after deploying from address 1 and minting one SEMESTER
certificate with parameters `sp1` and hash "H2" to student 2. -/
def postSem1 : CState :=
  { mintedState (initialState 1) 1 0 2 "H2" .SEMESTER with
    usedUniqueIdentifiers := fun x =>
      if x = sp1.serialNo then true
      else if x = sp1.memoNo then true
      else (mintedState (initialState 1) 1 0 2 "H2" .SEMESTER).usedUniqueIdentifiers x
    log := (mintedState (initialState 1) 1 0 2 "H2" .SEMESTER).log ++
      [.SemesterCertDetails 1 sp1.serialNo sp1.memoNo sp1.sgpa] }

theorem preserves_rfl {s : CState} : Preserves s s :=
  ⟨fun _ h => h, fun _ h => h, fun _ h => h, fun _ _ h => h, le_refl _⟩

theorem preserves_trans {s1 s2 s3 : CState}
    (h12 : Preserves s1 s2) (h23 : Preserves s2 s3) : Preserves s1 s3 := by
  obtain ⟨a12, b12, c12, d12, e12⟩ := h12
  obtain ⟨a23, b23, c23, d23, e23⟩ := h23
  exact ⟨fun h hh => a23 h (a12 h hh),
         fun u hu => b23 u (b12 u hu),
         fun t ht => c23 t (c12 t ht),
         fun t ht hr => d23 t (c12 t ht) (d12 t ht hr),
         le_trans e12 e23⟩

/-- Success characterization of `_mintBase`: the guards that must have
passed and the exact shape of the produced state and token id. -/
theorem mintBase_ok {s : CState} {c now : Nat} {d : Addr} {h : String}
    {ct : CertificateType} {s1 : CState} {tid : Nat}
    (hok : mintBase s c now d h ct = .ok (s1, tid)) :
    d ≠ 0 ∧ h ≠ "" ∧ s.usedHashes h = false ∧
    s.tokenIdCounter + 1 ≤ UINT256_MAX ∧
    s.owners (s.tokenIdCounter + 1) = 0 ∧
    tid = s.tokenIdCounter + 1 ∧ s1 = mintedState s c now d h ct := by
  unfold mintBase at hok
  split at hok
  · cases hok
  split at hok
  · cases hok
  split at hok
  · cases hok
  split at hok
  · cases hok
  split at hok
  · cases hok
  rename_i h1 h2 h3 h4 h5
  cases hok
  refine ⟨h1, h2, ?_, by omega, ?_, rfl, rfl⟩
  · simpa using h3
  · simpa using h5

/-- The state made by `mintedState` followed by any log override and any
pointwise-monotone extension of the unique-identifier set preserves the
`Preserves` facts, provided the fresh id was unowned. -/
theorem preserves_mintedState {s : CState} {c now : Nat} {d : Addr}
    {h : String} {ct : CertificateType}
    (h5 : s.owners (s.tokenIdCounter + 1) = 0) :
    Preserves s (mintedState s c now d h ct) := by
  unfold mintedState
  refine ⟨?_, ?_, ?_, ?_, ?_⟩
  · intro x hx
    simp only
    split <;> simp [hx]
  · intro u hu
    simpa using hu
  · intro t ht
    simp only
    split
    · rename_i heq
      subst heq
      exact absurd h5 ht
    · exact ht
  · intro t ht hr
    simp only
    split
    · rename_i heq
      subst heq
      exact absurd h5 ht
    · exact hr
  · simp

/-- Success characterization of `mintCertificate`. -/
theorem mintCertificate_ok {s : CState} {c now : Nat} {st : Addr}
    {cn g h : String} {s1 : CState} {tid : Nat}
    (hok : mintCertificate s c now st cn g h = .ok (s1, tid)) :
    s.roles .MINTER c = true ∧ s.paused = false ∧
    st ≠ 0 ∧ h ≠ "" ∧ s.usedHashes h = false ∧
    s.owners (s.tokenIdCounter + 1) = 0 ∧
    tid = s.tokenIdCounter + 1 ∧
    s1 = { mintedState s c now st h .REGULAR with
           log := (mintedState s c now st h .REGULAR).log ++
             [.RegularCertDetails tid cn g] } := by
  unfold mintCertificate at hok
  split at hok
  · cases hok
  split at hok
  · cases hok
  rename_i hrole hpaused
  cases hmb : mintBase s c now st h .REGULAR with
  | error e => rw [hmb] at hok; cases hok
  | ok p =>
      obtain ⟨s2, tid2⟩ := p
      rw [hmb] at hok
      cases hok
      obtain ⟨h1, h2, h3, _, h5, h6, h7⟩ := mintBase_ok hmb
      subst h7
      exact ⟨by simpa using hrole, by simpa using hpaused, h1, h2, h3, h5, h6, rfl⟩

/-- Success characterization of `mintSemesterCertificate`. -/
theorem mintSemesterCertificate_ok {s : CState} {c now : Nat} {st : Addr}
    {p : SemesterParams} {h : String} {s1 : CState} {tid : Nat}
    (hok : mintSemesterCertificate s c now st p h = .ok (s1, tid)) :
    s.roles .MINTER c = true ∧ s.paused = false ∧
    s.usedUniqueIdentifiers p.serialNo = false ∧
    s.usedUniqueIdentifiers p.memoNo = false ∧
    st ≠ 0 ∧ h ≠ "" ∧ s.usedHashes h = false ∧
    s.owners (s.tokenIdCounter + 1) = 0 ∧
    tid = s.tokenIdCounter + 1 ∧
    s1 = { mintedState s c now st h .SEMESTER with
           usedUniqueIdentifiers := fun x =>
             if x = p.serialNo then true
             else if x = p.memoNo then true
             else (mintedState s c now st h .SEMESTER).usedUniqueIdentifiers x
           log := (mintedState s c now st h .SEMESTER).log ++
             [.SemesterCertDetails tid p.serialNo p.memoNo p.sgpa] } := by
  unfold mintSemesterCertificate at hok
  split at hok
  · cases hok
  split at hok
  · cases hok
  split at hok
  · cases hok
  rename_i hrole hpaused huid
  cases hmb : mintBase s c now st h .SEMESTER with
  | error e => rw [hmb] at hok; cases hok
  | ok q =>
      obtain ⟨s2, tid2⟩ := q
      rw [hmb] at hok
      cases hok
      obtain ⟨h1, h2, h3, _, h5, h6, h7⟩ := mintBase_ok hmb
      subst h7
      rw [Bool.or_eq_true, not_or] at huid
      exact ⟨by simpa using hrole, by simpa using hpaused,
             by simpa using huid.1, by simpa using huid.2,
             h1, h2, h3, h5, h6, rfl⟩

/-- Success characterization of `mintAchievementCertificate`. -/
theorem mintAchievementCertificate_ok {s : CState} {c now : Nat} {st : Addr}
    {title cat h : String} {vs : List Addr} {s1 : CState} {tid : Nat}
    (hok : mintAchievementCertificate s c now st title cat h vs = .ok (s1, tid)) :
    s.roles .MINTER c = true ∧ s.paused = false ∧
    st ≠ 0 ∧ h ≠ "" ∧ s.usedHashes h = false ∧
    s.owners (s.tokenIdCounter + 1) = 0 ∧
    tid = s.tokenIdCounter + 1 ∧
    s1 = { mintedState s c now st h .ACHIEVEMENT with
           log := (mintedState s c now st h .ACHIEVEMENT).log ++
             [.AchievementCertDetails tid title cat] } := by
  unfold mintAchievementCertificate at hok
  split at hok
  · cases hok
  split at hok
  · cases hok
  rename_i hrole hpaused
  cases hmb : mintBase s c now st h .ACHIEVEMENT with
  | error e => rw [hmb] at hok; cases hok
  | ok q =>
      obtain ⟨s2, tid2⟩ := q
      rw [hmb] at hok
      cases hok
      obtain ⟨h1, h2, h3, _, h5, h6, h7⟩ := mintBase_ok hmb
      subst h7
      exact ⟨by simpa using hrole, by simpa using hpaused, h1, h2, h3, h5, h6, rfl⟩

/-- Success characterization of `mintCustomCertificate`. -/
theorem mintCustomCertificate_ok {s : CState} {c now : Nat} {st : Addr}
    {tpl : String} {fns fvs : List String} {h : String} {s1 : CState} {tid : Nat}
    (hok : mintCustomCertificate s c now st tpl fns fvs h = .ok (s1, tid)) :
    s.roles .MINTER c = true ∧ s.paused = false ∧
    st ≠ 0 ∧ h ≠ "" ∧ s.usedHashes h = false ∧
    s.owners (s.tokenIdCounter + 1) = 0 ∧
    tid = s.tokenIdCounter + 1 ∧
    s1 = { mintedState s c now st h .CUSTOM with
           log := (mintedState s c now st h .CUSTOM).log ++
             [.CustomCertDetails tid tpl] } := by
  unfold mintCustomCertificate at hok
  split at hok
  · cases hok
  split at hok
  · cases hok
  rename_i hrole hpaused
  cases hmb : mintBase s c now st h .CUSTOM with
  | error e => rw [hmb] at hok; cases hok
  | ok q =>
      obtain ⟨s2, tid2⟩ := q
      rw [hmb] at hok
      cases hok
      obtain ⟨h1, h2, h3, _, h5, h6, h7⟩ := mintBase_ok hmb
      subst h7
      exact ⟨by simpa using hrole, by simpa using hpaused, h1, h2, h3, h5, h6, rfl⟩

/-- Success characterization of `revokeCertificate`. -/
theorem revokeCertificate_ok {s : CState} {c : Addr} {t : Nat} {s1 : CState}
    (hok : revokeCertificate s c t = .ok s1) :
    s.roles .ADMIN c = true ∧ s.owners t ≠ 0 ∧
    (s.certConfigs t).isRevoked = false ∧
    s1 = { s with
           certConfigs := fun u =>
             if u = t then { s.certConfigs t with isRevoked := true }
             else s.certConfigs u
           log := s.log ++ [.CertRevoked t c] } := by
  unfold revokeCertificate at hok
  split at hok
  · cases hok
  split at hok
  · cases hok
  split at hok
  · cases hok
  rename_i hrole howner hrev
  cases hok
  exact ⟨by simpa using hrole, howner, by simpa using hrev, rfl⟩

/-- Everything a successful run of the batch-mint loop guarantees:
the `Preserves` facts, the counter advances by the batch length, the
appended log records issue exactly the ids `counter+1 .. counter+n` in
input order, every student is nonzero, every hash is nonempty, fresh
at entry and pairwise distinct, the owner-index/log correspondence is
kept, and the pause flag and role table are untouched. -/
theorem mintBatchLoop_ok {c now : Nat} :
    ∀ (sts : List Addr) (cns gs hs : List String) (s s1 : CState),
    mintBatchLoop c now s sts cns gs hs = .ok s1 →
    Preserves s s1 ∧
    s1.tokenIdCounter = s.tokenIdCounter + sts.length ∧
    (∃ tail, s1.log = s.log ++ tail ∧
      issuedIds tail = List.range' (s.tokenIdCounter + 1) sts.length) ∧
    (∀ a ∈ sts, a ≠ 0) ∧
    (∀ x ∈ hs, x ≠ "" ∧ s.usedHashes x = false) ∧
    hs.Nodup ∧
    (OwnerIdx s → OwnerIdx s1) ∧
    s1.paused = s.paused ∧ s1.roles = s.roles := by
  intro sts
  induction sts with
  | nil =>
      intro cns gs hs s s1 hok
      cases cns <;> cases gs <;> cases hs <;> simp [mintBatchLoop] at hok
      subst hok
      refine ⟨preserves_rfl, by simp, ⟨[], by simp, by simp [issuedIds]⟩,
        by simp, by simp, by simp, fun hx => hx, rfl, rfl⟩
  | cons st sts ih =>
      intro cns gs hs s s1 hok
      cases cns with
      | nil => simp [mintBatchLoop] at hok
      | cons cn cns =>
      cases gs with
      | nil => simp [mintBatchLoop] at hok
      | cons g gs =>
      cases hs with
      | nil => simp [mintBatchLoop] at hok
      | cons h hs =>
      unfold mintBatchLoop at hok
      cases hmb : mintBase s c now st h .REGULAR with
      | error e => rw [hmb] at hok; cases hok
      | ok q =>
          obtain ⟨s2, tid⟩ := q
          rw [hmb] at hok
          obtain ⟨h1, h2, h3, _, h5, h6, h7⟩ := mintBase_ok hmb
          subst h7
          subst h6
          obtain ⟨ihP, ihCnt, ⟨tail, ihLog, ihIds⟩, ihSts, ihHs, ihNd, ihIdx,
            ihPause, ihRoles⟩ := ih _ _ _ _ _ hok
          have hf1 : ({ mintedState s c now st h .REGULAR with
              log := (mintedState s c now st h .REGULAR).log ++
                [.RegularCertDetails (s.tokenIdCounter + 1) cn g] } :
              CState).tokenIdCounter = s.tokenIdCounter + 1 := rfl
          have hf2 : ∀ x, ({ mintedState s c now st h .REGULAR with
              log := (mintedState s c now st h .REGULAR).log ++
                [.RegularCertDetails (s.tokenIdCounter + 1) cn g] } :
              CState).usedHashes x = if x = h then true else s.usedHashes x :=
            fun _ => rfl
          have hf3 : ({ mintedState s c now st h .REGULAR with
              log := (mintedState s c now st h .REGULAR).log ++
                [.RegularCertDetails (s.tokenIdCounter + 1) cn g] } :
              CState).log = s.log ++
                [.CertificateIssued (s.tokenIdCounter + 1) st h .REGULAR now,
                 .RegularCertDetails (s.tokenIdCounter + 1) cn g] := by
            simp [mintedState]
          have husedh : ∀ x ∈ hs, x ≠ h := by
            intro x hx hxh
            have hh := (ihHs x hx).2
            rw [hf2, hxh] at hh
            simp at hh
          refine ⟨?_, ?_, ?_, ?_, ?_, ?_, ?_, ?_, ?_⟩
          · exact preserves_trans (preserves_mintedState h5) ihP
          · rw [hf1] at ihCnt
            rw [ihCnt]
            simp
            omega
          · refine ⟨.CertificateIssued (s.tokenIdCounter + 1) st h .REGULAR now ::
              .RegularCertDetails (s.tokenIdCounter + 1) cn g :: tail, ?_, ?_⟩
            · rw [ihLog, hf3]
              simp
            · rw [hf1] at ihIds
              simp only [issuedIds, List.filterMap_cons] at ihIds ⊢
              rw [List.length_cons, List.range'_succ]
              rw [ihIds]
          · intro a ha
            rcases List.mem_cons.mp ha with rfl | ha
            · exact h1
            · exact ihSts a ha
          · intro x hx
            rcases List.mem_cons.mp hx with rfl | hx
            · exact ⟨h2, h3⟩
            · refine ⟨(ihHs x hx).1, ?_⟩
              have hh := (ihHs x hx).2
              rw [hf2] at hh
              have hxh := husedh x hx
              simpa [hxh] using hh
          · rw [List.nodup_cons]
            exact ⟨fun hmem => (husedh h hmem) rfl, ihNd⟩
          · intro hidx
            apply ihIdx
            intro o
            rw [hf3]
            have hown : ∀ a, ({ mintedState s c now st h .REGULAR with
                log := (mintedState s c now st h .REGULAR).log ++
                  [.RegularCertDetails (s.tokenIdCounter + 1) cn g] } :
                CState).studentCertificates a =
                if a = st then s.studentCertificates a ++ [s.tokenIdCounter + 1]
                else s.studentCertificates a := fun _ => rfl
            rw [hown]
            have hbase := hidx o
            by_cases ho : o = st
            · subst ho
              simp [issuedTo, List.filterMap_append, List.filterMap_cons, hbase]
            · have hst : ¬ (st = o) := fun hc => ho hc.symm
              simp [issuedTo, List.filterMap_append, List.filterMap_cons, ho,
                hst, hbase]
          · rw [ihPause]
            rfl
          · rw [ihRoles]
            rfl

/-- Success characterization of `mintCertificatesBatch`: the guards that
must have passed, and the fact that the loop ran from the entry state. -/
theorem mintCertificatesBatch_ok {s : CState} {c now : Nat} {sts : List Addr}
    {cns gs hs : List String} {s1 : CState}
    (hok : mintCertificatesBatch s c now sts cns gs hs = .ok s1) :
    s.roles .MINTER c = true ∧ s.paused = false ∧
    sts.length ≤ MAX_BATCH_SIZE ∧
    cns.length = sts.length ∧ gs.length = sts.length ∧ hs.length = sts.length ∧
    mintBatchLoop c now s sts cns gs hs = .ok s1 := by
  unfold mintCertificatesBatch at hok
  split at hok
  · cases hok
  split at hok
  · cases hok
  split at hok
  · cases hok
  split at hok
  · cases hok
  rename_i hrole hpaused hlimit hlen
  push_neg at hlen
  exact ⟨by simpa using hrole, by simpa using hpaused, by omega,
    hlen.1, hlen.2.1, hlen.2.2, hok⟩

/-- Every successful call preserves the `Preserves` facts. -/
theorem stepState_ok_preserves {s : CState} {op : Op} {s1 : CState}
    (hok : stepState s op = .ok s1) : Preserves s s1 := by
  cases op with
  | mintCertificate c now st cn g h =>
      simp only [stepState] at hok
      cases hmc : mintCertificate s c now st cn g h with
      | error e => rw [hmc] at hok; cases hok
      | ok q =>
          obtain ⟨s2, tid⟩ := q
          rw [hmc] at hok
          cases hok
          obtain ⟨_, _, _, _, _, h5, _, h7⟩ := mintCertificate_ok hmc
          subst h7
          exact preserves_mintedState h5
  | mintCertificatesBatch c now sts cns gs hs =>
      simp only [stepState] at hok
      exact (mintBatchLoop_ok _ _ _ _ _ _ (mintCertificatesBatch_ok hok).2.2.2.2.2.2).1
  | mintSemesterCertificate c now st p h =>
      simp only [stepState] at hok
      cases hmc : mintSemesterCertificate s c now st p h with
      | error e => rw [hmc] at hok; cases hok
      | ok q =>
          obtain ⟨s2, tid⟩ := q
          rw [hmc] at hok
          cases hok
          obtain ⟨_, _, _, _, _, _, _, h8, _, h10⟩ := mintSemesterCertificate_ok hmc
          subst h10
          obtain ⟨p1, p2, p3, p4, p5⟩ :=
            @preserves_mintedState s c now st h .SEMESTER h8
          refine ⟨p1, ?_, p3, p4, p5⟩
          intro u hu
          have hu2 := p2 u hu
          show (if u = p.serialNo then true
            else if u = p.memoNo then true
            else (mintedState s c now st h .SEMESTER).usedUniqueIdentifiers u) = true
          split
          · rfl
          split
          · rfl
          · exact hu2
  | mintAchievementCertificate c now st t cat h vs =>
      simp only [stepState] at hok
      cases hmc : mintAchievementCertificate s c now st t cat h vs with
      | error e => rw [hmc] at hok; cases hok
      | ok q =>
          obtain ⟨s2, tid⟩ := q
          rw [hmc] at hok
          cases hok
          obtain ⟨_, _, _, _, _, h5, _, h7⟩ := mintAchievementCertificate_ok hmc
          subst h7
          exact preserves_mintedState h5
  | mintCustomCertificate c now st tpl fns fvs h =>
      simp only [stepState] at hok
      cases hmc : mintCustomCertificate s c now st tpl fns fvs h with
      | error e => rw [hmc] at hok; cases hok
      | ok q =>
          obtain ⟨s2, tid⟩ := q
          rw [hmc] at hok
          cases hok
          obtain ⟨_, _, _, _, _, h5, _, h7⟩ := mintCustomCertificate_ok hmc
          subst h7
          exact preserves_mintedState h5
  | revokeCertificate c t =>
      simp only [stepState] at hok
      obtain ⟨_, _, _, h4⟩ := revokeCertificate_ok hok
      subst h4
      refine ⟨fun _ hh => hh, fun _ hh => hh, fun _ hh => hh, ?_, le_refl _⟩
      intro t2 ht2 hr2
      show (if t2 = t then { s.certConfigs t with isRevoked := true }
        else s.certConfigs t2).isRevoked = true
      split
      · rfl
      · exact hr2
  | verifyCertificateByVerifier c t =>
      simp only [stepState, verifyCertificateByVerifier] at hok
      split at hok
      · cases hok
      simp only [Except.map] at hok
      cases hok
      exact ⟨fun _ hh => hh, fun _ hh => hh, fun _ hh => hh, fun _ _ hh => hh,
        le_refl _⟩
  | pause c =>
      simp only [stepState, pause] at hok
      split at hok
      · cases hok
      split at hok
      · cases hok
      cases hok
      exact ⟨fun _ hh => hh, fun _ hh => hh, fun _ hh => hh, fun _ _ hh => hh,
        le_refl _⟩
  | unpause c =>
      simp only [stepState, unpause] at hok
      split at hok
      · cases hok
      split at hok
      · cases hok
      cases hok
      exact ⟨fun _ hh => hh, fun _ hh => hh, fun _ hh => hh, fun _ _ hh => hh,
        le_refl _⟩
  | setBaseURI c u =>
      simp only [stepState, setBaseURI] at hok
      split at hok
      · cases hok
      cases hok
      exact ⟨fun _ hh => hh, fun _ hh => hh, fun _ hh => hh, fun _ _ hh => hh,
        le_refl _⟩

/-- Transaction semantics preserve the `Preserves` facts: a reverted
call changes nothing, a successful one preserves them. -/
theorem applyTx_preserves (s : CState) (op : Op) : Preserves s (applyTx s op) := by
  unfold applyTx
  cases hss : stepState s op with
  | ok s1 => exact stepState_ok_preserves hss
  | error e => exact preserves_rfl

/-- The `Preserves` facts hold across any sequence of calls. -/
theorem execOps_preserves (s : CState) (ops : List Op) :
    Preserves s (execOps s ops) := by
  induction ops generalizing s with
  | nil => exact preserves_rfl
  | cons op ops ih =>
      exact preserves_trans (applyTx_preserves s op) (ih (applyTx s op))

/-- A mint step whose trailing detail event issues nothing keeps the
owner-index/log correspondence. -/
theorem ownerIdx_mint_log {s : CState} {c now : Nat} {d : Addr} {h : String}
    {ct : CertificateType} (hidx : OwnerIdx s) (ev : Event)
    (hev : ∀ o, issuedTo [ev] o = []) :
    OwnerIdx { mintedState s c now d h ct with
               log := (mintedState s c now d h ct).log ++ [ev] } := by
  intro o
  have hstud : ({ mintedState s c now d h ct with
      log := (mintedState s c now d h ct).log ++ [ev] } : CState).studentCertificates o
      = if o = d then s.studentCertificates o ++ [s.tokenIdCounter + 1]
        else s.studentCertificates o := rfl
  have hlog : ({ mintedState s c now d h ct with
      log := (mintedState s c now d h ct).log ++ [ev] } : CState).log
      = (s.log ++ [.CertificateIssued (s.tokenIdCounter + 1) d h ct now]) ++ [ev] := by
    simp [mintedState]
  rw [hstud, hlog]
  have hbase := hidx o
  unfold issuedTo at hbase ⊢
  rw [List.filterMap_append, List.filterMap_append]
  have hev2 := hev o
  unfold issuedTo at hev2
  rw [hev2, List.append_nil]
  by_cases ho : o = d
  · subst ho
    simp [List.filterMap_cons, hbase]
  · have hdo : ¬ (d = o) := fun hc => ho hc.symm
    simp [List.filterMap_cons, ho, hdo, hbase]

/-- Every successful call keeps the owner-index/log correspondence. -/
theorem stepState_ok_ownerIdx {s : CState} {op : Op} {s1 : CState}
    (hok : stepState s op = .ok s1) (hidx : OwnerIdx s) : OwnerIdx s1 := by
  cases op with
  | mintCertificate c now st cn g h =>
      simp only [stepState] at hok
      cases hmc : mintCertificate s c now st cn g h with
      | error e => rw [hmc] at hok; cases hok
      | ok q =>
          obtain ⟨s2, tid⟩ := q
          rw [hmc] at hok
          cases hok
          obtain ⟨_, _, _, _, _, _, h6, h7⟩ := mintCertificate_ok hmc
          subst h7
          subst h6
          exact ownerIdx_mint_log hidx _ (fun _ => rfl)
  | mintCertificatesBatch c now sts cns gs hs =>
      simp only [stepState] at hok
      obtain ⟨_, _, ⟨_, _, _, _, _, _, hIdx, _, _⟩⟩ :=
        And.intro True.intro (And.intro True.intro
          (mintBatchLoop_ok _ _ _ _ _ _ (mintCertificatesBatch_ok hok).2.2.2.2.2.2))
      exact hIdx hidx
  | mintSemesterCertificate c now st p h =>
      simp only [stepState] at hok
      cases hmc : mintSemesterCertificate s c now st p h with
      | error e => rw [hmc] at hok; cases hok
      | ok q =>
          obtain ⟨s2, tid⟩ := q
          rw [hmc] at hok
          cases hok
          obtain ⟨_, _, _, _, _, _, _, _, h9, h10⟩ := mintSemesterCertificate_ok hmc
          subst h10
          subst h9
          intro o
          have hstud : ∀ (s3 : CState),
              s3 = { mintedState s c now st h .SEMESTER with
                usedUniqueIdentifiers := fun x =>
                  if x = p.serialNo then true
                  else if x = p.memoNo then true
                  else (mintedState s c now st h .SEMESTER).usedUniqueIdentifiers x
                log := (mintedState s c now st h .SEMESTER).log ++
                  [.SemesterCertDetails (s.tokenIdCounter + 1) p.serialNo p.memoNo p.sgpa] } →
              s3.studentCertificates o =
                (if o = st then s.studentCertificates o ++ [s.tokenIdCounter + 1]
                 else s.studentCertificates o) ∧
              s3.log = (s.log ++
                [.CertificateIssued (s.tokenIdCounter + 1) st h .SEMESTER now]) ++
                [.SemesterCertDetails (s.tokenIdCounter + 1) p.serialNo p.memoNo p.sgpa] := by
            intro s3 hs3
            subst hs3
            exact ⟨rfl, by simp [mintedState]⟩
          obtain ⟨hstud1, hlog1⟩ := hstud _ rfl
          rw [hstud1, hlog1]
          have hbase := hidx o
          unfold issuedTo at hbase ⊢
          rw [List.filterMap_append, List.filterMap_append]
          by_cases ho : o = st
          · subst ho
            simp [List.filterMap_cons, hbase]
          · have hdo : ¬ (st = o) := fun hc => ho hc.symm
            simp [List.filterMap_cons, ho, hdo, hbase]
  | mintAchievementCertificate c now st t cat h vs =>
      simp only [stepState] at hok
      cases hmc : mintAchievementCertificate s c now st t cat h vs with
      | error e => rw [hmc] at hok; cases hok
      | ok q =>
          obtain ⟨s2, tid⟩ := q
          rw [hmc] at hok
          cases hok
          obtain ⟨_, _, _, _, _, _, h6, h7⟩ := mintAchievementCertificate_ok hmc
          subst h7
          subst h6
          exact ownerIdx_mint_log hidx _ (fun _ => rfl)
  | mintCustomCertificate c now st tpl fns fvs h =>
      simp only [stepState] at hok
      cases hmc : mintCustomCertificate s c now st tpl fns fvs h with
      | error e => rw [hmc] at hok; cases hok
      | ok q =>
          obtain ⟨s2, tid⟩ := q
          rw [hmc] at hok
          cases hok
          obtain ⟨_, _, _, _, _, _, h6, h7⟩ := mintCustomCertificate_ok hmc
          subst h7
          subst h6
          exact ownerIdx_mint_log hidx _ (fun _ => rfl)
  | revokeCertificate c t =>
      simp only [stepState] at hok
      obtain ⟨_, _, _, h4⟩ := revokeCertificate_ok hok
      subst h4
      intro o
      have hbase := hidx o
      show s.studentCertificates o = issuedTo (s.log ++ [.CertRevoked t c]) o
      unfold issuedTo at hbase ⊢
      rw [List.filterMap_append]
      simp [List.filterMap_cons, hbase]
  | verifyCertificateByVerifier c t =>
      simp only [stepState, verifyCertificateByVerifier] at hok
      split at hok
      · cases hok
      simp only [Except.map] at hok
      cases hok
      intro o
      have hbase := hidx o
      show s.studentCertificates o =
        issuedTo (s.log ++ [.CertVerified t c (verifyCertificate s t).1]) o
      unfold issuedTo at hbase ⊢
      rw [List.filterMap_append]
      simp [List.filterMap_cons, hbase]
  | pause c =>
      simp only [stepState, pause] at hok
      split at hok
      · cases hok
      split at hok
      · cases hok
      cases hok
      exact hidx
  | unpause c =>
      simp only [stepState, unpause] at hok
      split at hok
      · cases hok
      split at hok
      · cases hok
      cases hok
      exact hidx
  | setBaseURI c u =>
      simp only [stepState, setBaseURI] at hok
      split at hok
      · cases hok
      cases hok
      exact hidx

/-- Transaction semantics keep the owner-index/log correspondence. -/
theorem applyTx_ownerIdx {s : CState} (op : Op) (hidx : OwnerIdx s) :
    OwnerIdx (applyTx s op) := by
  unfold applyTx
  cases hss : stepState s op with
  | ok s1 => exact stepState_ok_ownerIdx hss hidx
  | error e => exact hidx

/-- The owner-index/log correspondence holds across any sequence of calls. -/
theorem execOps_ownerIdx {s : CState} (ops : List Op) (hidx : OwnerIdx s) :
    OwnerIdx (execOps s ops) := by
  induction ops generalizing s with
  | nil => exact hidx
  | cons op ops ih => exact ih (applyTx_ownerIdx op hidx)

/-- The freshly deployed contract satisfies the owner-index/log
correspondence. -/
theorem initialState_ownerIdx (d : Addr) : OwnerIdx (initialState d) :=
  fun _ => rfl

/-- C1: batch minting is all-or-nothing.  If the call reverts for any
reason the transaction leaves the state (in particular the token id
counter and the issuance log) exactly as before the call; and whenever
some element would fail — a zero owner address, an empty hash, a hash
already registered before the call, or a duplicate hash within the
batch — the call cannot succeed, so the transaction leaves the state
unchanged: no partial mint occurs. -/
theorem batch_all_or_nothing :
    (∀ (s : CState) (c now : Nat) (sts : List Addr) (cns gs hs : List String)
      (e : Err), mintCertificatesBatch s c now sts cns gs hs = .error e →
      applyTx s (.mintCertificatesBatch c now sts cns gs hs) = s) ∧
    (∀ (s : CState) (c now : Nat) (sts : List Addr) (cns gs hs : List String),
      ((∃ a ∈ sts, a = 0) ∨ (∃ x ∈ hs, x = "" ∨ s.usedHashes x = true) ∨
        ¬ hs.Nodup) →
      applyTx s (.mintCertificatesBatch c now sts cns gs hs) = s ∧
      (applyTx s (.mintCertificatesBatch c now sts cns gs hs)).tokenIdCounter =
        s.tokenIdCounter ∧
      (applyTx s (.mintCertificatesBatch c now sts cns gs hs)).log = s.log) := by
  have herr : ∀ (s : CState) (c now : Nat) (sts : List Addr)
      (cns gs hs : List String) (e : Err),
      mintCertificatesBatch s c now sts cns gs hs = .error e →
      applyTx s (.mintCertificatesBatch c now sts cns gs hs) = s := by
    intro s c now sts cns gs hs e he
    simp [applyTx, stepState, he]
  refine ⟨herr, ?_⟩
  intro s c now sts cns gs hs hbad
  cases hres : mintCertificatesBatch s c now sts cns gs hs with
  | error e =>
      have := herr s c now sts cns gs hs e hres
      exact ⟨this, by rw [this], by rw [this]⟩
  | ok s1 =>
      exfalso
      obtain ⟨_, _, _, _, _, _, hloop⟩ := mintCertificatesBatch_ok hres
      obtain ⟨_, _, _, hSts, hHs, hNd, _, _, _⟩ :=
        mintBatchLoop_ok _ _ _ _ _ _ hloop
      rcases hbad with ⟨a, ha, ha0⟩ | ⟨x, hx, hxbad⟩ | hnd
      · exact hSts a ha ha0
      · rcases hxbad with hxe | hxu
        · exact (hHs x hx).1 hxe
        · rw [(hHs x hx).2] at hxu
          cases hxu
      · exact hnd hNd

/-- Witness for C1 at a concrete batch containing a duplicate hash:
the whole call is rolled back. -/
theorem batch_all_or_nothing_witness :
    applyTx (initialState 1)
      (.mintCertificatesBatch 1 0 [2, 3] ["C1", "C2"] ["A", "B"] ["H1", "H1"]) =
      initialState 1 :=
  (batch_all_or_nothing.2 (initialState 1) 1 0 [2, 3] ["C1", "C2"] ["A", "B"]
    ["H1", "H1"] (Or.inr (Or.inr (by decide)))).1

/-- C2 counterexample: an empty batch is NOT rejected with `BatchLimit`
as the claim states — the size check in the source only rejects
`len > MAX_BATCH_SIZE`, so a batch of size 0 succeeds as a no-op. -/
theorem batch_empty_not_rejected :
    mintCertificatesBatch (initialState 1) 1 0 [] [] [] [] =
      .ok (initialState 1) := rfl

/-- C2 amended: for an authorized minter on an unpaused registry, the
batch call fails with `BatchLimit` whenever `n` exceeds
`MAX_BATCH_SIZE = 50` (this check runs first), and with
`LengthMismatch` whenever `n ≤ 50` and the parallel arrays differ in
length; a batch of size 0 with all arrays empty is accepted as a no-op. -/
theorem batch_validation_amended :
    (∀ (s : CState) (c now : Nat) (sts : List Addr) (cns gs hs : List String),
      s.roles .MINTER c = true → s.paused = false →
      (MAX_BATCH_SIZE < sts.length →
        mintCertificatesBatch s c now sts cns gs hs = .error .BatchLimit) ∧
      (sts.length ≤ MAX_BATCH_SIZE →
        (cns.length ≠ sts.length ∨ gs.length ≠ sts.length ∨
          hs.length ≠ sts.length) →
        mintCertificatesBatch s c now sts cns gs hs = .error .LengthMismatch)) ∧
    (∀ (s : CState) (c now : Nat), s.roles .MINTER c = true → s.paused = false →
      mintCertificatesBatch s c now [] [] [] [] = .ok s) := by
  constructor
  · intro s c now sts cns gs hs hrole hpaused
    constructor
    · intro hlim
      unfold mintCertificatesBatch
      simp [hrole, hpaused, hlim]
    · intro hlim hmm
      unfold mintCertificatesBatch
      rw [if_neg (by simp [hrole]), if_neg (by simp [hpaused]),
        if_neg (by omega), if_pos hmm]
  · intro s c now hrole hpaused
    unfold mintCertificatesBatch
    rw [if_neg (by simp [hrole]), if_neg (by simp [hpaused]),
      if_neg (by simp [MAX_BATCH_SIZE]), if_neg (by simp)]
    rfl

/-- Witness for the amended C2: an oversized batch fails `BatchLimit`,
a length-mismatched one fails `LengthMismatch`, an empty one succeeds. -/
theorem batch_validation_amended_witness :
    mintCertificatesBatch (initialState 1) 1 0 (List.replicate 51 2)
      (List.replicate 51 "C") (List.replicate 51 "A") (List.replicate 51 "H") =
      .error .BatchLimit ∧
    mintCertificatesBatch (initialState 1) 1 0 [2, 3] ["C1"] ["A", "B"]
      ["H1", "H2"] = .error .LengthMismatch ∧
    mintCertificatesBatch (initialState 1) 1 0 [] [] [] [] =
      .ok (initialState 1) :=
  ⟨(batch_validation_amended.1 (initialState 1) 1 0 (List.replicate 51 2)
      (List.replicate 51 "C") (List.replicate 51 "A") (List.replicate 51 "H")
      rfl rfl).1 (by simp [MAX_BATCH_SIZE]),
   (batch_validation_amended.1 (initialState 1) 1 0 [2, 3] ["C1"] ["A", "B"]
      ["H1", "H2"] rfl rfl).2 (by simp [MAX_BATCH_SIZE]) (by simp),
   batch_validation_amended.2 (initialState 1) 1 0 rfl rfl⟩

/-- C3 counterexample: `revokeCertificate` carries no `whenNotPaused`
guard, so revocation is NOT rejected while the registry is paused —
here the registry is paused, yet the admin revocation of token 1
succeeds and mutates the state. -/
theorem paused_revoke_succeeds :
    (applyTx (applyTx (initialState 1) (.mintCertificate 1 0 2 "C" "A" "H1"))
      (.pause 1)).paused = true ∧
    succeeded (revokeCertificate
      (applyTx (applyTx (initialState 1) (.mintCertificate 1 0 2 "C" "A" "H1"))
        (.pause 1)) 1 1) = true ∧
    ((applyTx (applyTx (applyTx (initialState 1)
        (.mintCertificate 1 0 2 "C" "A" "H1")) (.pause 1))
        (.revokeCertificate 1 1)).certConfigs 1).isRevoked = true :=
  ⟨rfl, rfl, rfl⟩

/-- C3 amended: while paused, every mint variant invoked by a minter is
rejected with the paused-state error `EnforcedPause` (and, as with all
reverts, the transaction leaves the state unchanged); revocation,
however, has no pause guard: an admin revocation of an existing
unrevoked token succeeds while paused. -/
theorem paused_rejection_amended :
    ∀ (s : CState), s.paused = true →
    (∀ (c now : Nat) (st : Addr) (cn g h : String),
      s.roles .MINTER c = true →
      mintCertificate s c now st cn g h = .error .EnforcedPause) ∧
    (∀ (c now : Nat) (sts : List Addr) (cns gs hs : List String),
      s.roles .MINTER c = true →
      mintCertificatesBatch s c now sts cns gs hs = .error .EnforcedPause) ∧
    (∀ (c now : Nat) (st : Addr) (p : SemesterParams) (h : String),
      s.roles .MINTER c = true →
      mintSemesterCertificate s c now st p h = .error .EnforcedPause) ∧
    (∀ (c now : Nat) (st : Addr) (t cat h : String) (vs : List Addr),
      s.roles .MINTER c = true →
      mintAchievementCertificate s c now st t cat h vs = .error .EnforcedPause) ∧
    (∀ (c now : Nat) (st : Addr) (tpl : String) (fns fvs : List String)
      (h : String), s.roles .MINTER c = true →
      mintCustomCertificate s c now st tpl fns fvs h = .error .EnforcedPause) ∧
    (∀ (c : Addr) (t : Nat), s.roles .ADMIN c = true → s.owners t ≠ 0 →
      (s.certConfigs t).isRevoked = false →
      succeeded (revokeCertificate s c t) = true) ∧
    (∀ (op : Op) (e : Err), stepState s op = .error e → applyTx s op = s) := by
  intro s hpaused
  refine ⟨?_, ?_, ?_, ?_, ?_, ?_, ?_⟩
  · intro c now st cn g h hrole
    unfold mintCertificate
    simp [hrole, hpaused]
  · intro c now sts cns gs hs hrole
    unfold mintCertificatesBatch
    simp [hrole, hpaused]
  · intro c now st p h hrole
    unfold mintSemesterCertificate
    simp [hrole, hpaused]
  · intro c now st t cat h vs hrole
    unfold mintAchievementCertificate
    simp [hrole, hpaused]
  · intro c now st tpl fns fvs h hrole
    unfold mintCustomCertificate
    simp [hrole, hpaused]
  · intro c t hrole howner hrev
    unfold revokeCertificate
    rw [if_neg (by simp [hrole]), if_neg howner, if_neg (by simp [hrev])]
    rfl
  · intro op e herr
    unfold applyTx
    rw [herr]


/-- Witness for the amended C3 on a concrete paused registry holding
token 1: a mint is rejected with `EnforcedPause`, the revocation of
token 1 succeeds. -/
theorem paused_rejection_amended_witness :
    mintCertificate
      (applyTx (applyTx (initialState 1) (.mintCertificate 1 0 2 "C" "A" "H1"))
        (.pause 1)) 1 0 3 "D" "B" "H2" = .error .EnforcedPause ∧
    succeeded (revokeCertificate
      (applyTx (applyTx (initialState 1) (.mintCertificate 1 0 2 "C" "A" "H1"))
        (.pause 1)) 1 1) = true :=
  ⟨(paused_rejection_amended _ rfl).1 1 0 3 "D" "B" "H2" rfl,
   (paused_rejection_amended _ rfl).2.2.2.2.2.1 1 1 rfl (by decide) rfl⟩

/-- C4: token ids are allocated by a counter that starts at 0, so the
first id is 1 and every successful mint returns exactly the previous
id plus one, never 0; a successful batch advances the counter by the
batch length and the appended log issues exactly the ids
`counter+1 .. counter+n` in input order; no operation ever decreases
the counter, so ids are never reassigned. -/
theorem tokenId_monotonic :
    (∀ d : Addr, (initialState d).tokenIdCounter = 0) ∧
    (∀ (s : CState) (c now : Nat) (st : Addr) (cn g h : String) (s1 : CState)
      (tid : Nat), mintCertificate s c now st cn g h = .ok (s1, tid) →
      tid = s.tokenIdCounter + 1 ∧ s1.tokenIdCounter = tid ∧ tid ≠ 0) ∧
    (∀ (s : CState) (c now : Nat) (st : Addr) (p : SemesterParams) (h : String)
      (s1 : CState) (tid : Nat),
      mintSemesterCertificate s c now st p h = .ok (s1, tid) →
      tid = s.tokenIdCounter + 1 ∧ s1.tokenIdCounter = tid ∧ tid ≠ 0) ∧
    (∀ (s : CState) (c now : Nat) (st : Addr) (t cat h : String)
      (vs : List Addr) (s1 : CState) (tid : Nat),
      mintAchievementCertificate s c now st t cat h vs = .ok (s1, tid) →
      tid = s.tokenIdCounter + 1 ∧ s1.tokenIdCounter = tid ∧ tid ≠ 0) ∧
    (∀ (s : CState) (c now : Nat) (st : Addr) (tpl : String)
      (fns fvs : List String) (h : String) (s1 : CState) (tid : Nat),
      mintCustomCertificate s c now st tpl fns fvs h = .ok (s1, tid) →
      tid = s.tokenIdCounter + 1 ∧ s1.tokenIdCounter = tid ∧ tid ≠ 0) ∧
    (∀ (s : CState) (c now : Nat) (sts : List Addr) (cns gs hs : List String)
      (s1 : CState), mintCertificatesBatch s c now sts cns gs hs = .ok s1 →
      s1.tokenIdCounter = s.tokenIdCounter + sts.length ∧
      ∃ tail, s1.log = s.log ++ tail ∧
        issuedIds tail = List.range' (s.tokenIdCounter + 1) sts.length) ∧
    (∀ (s : CState) (op : Op),
      s.tokenIdCounter ≤ (applyTx s op).tokenIdCounter) := by
  refine ⟨fun _ => rfl, ?_, ?_, ?_, ?_, ?_, ?_⟩
  · intro s c now st cn g h s1 tid hok
    obtain ⟨_, _, _, _, _, _, h6, h7⟩ := mintCertificate_ok hok
    subst h7
    exact ⟨h6, by rw [h6]; rfl, by omega⟩
  · intro s c now st p h s1 tid hok
    obtain ⟨_, _, _, _, _, _, _, _, h9, h10⟩ := mintSemesterCertificate_ok hok
    subst h10
    exact ⟨h9, by rw [h9]; rfl, by omega⟩
  · intro s c now st t cat h vs s1 tid hok
    obtain ⟨_, _, _, _, _, _, h6, h7⟩ := mintAchievementCertificate_ok hok
    subst h7
    exact ⟨h6, by rw [h6]; rfl, by omega⟩
  · intro s c now st tpl fns fvs h s1 tid hok
    obtain ⟨_, _, _, _, _, _, h6, h7⟩ := mintCustomCertificate_ok hok
    subst h7
    exact ⟨h6, by rw [h6]; rfl, by omega⟩
  · intro s c now sts cns gs hs s1 hok
    obtain ⟨_, _, _, _, _, _, hloop⟩ := mintCertificatesBatch_ok hok
    obtain ⟨_, hcnt, htail, _, _, _, _, _, _⟩ := mintBatchLoop_ok _ _ _ _ _ _ hloop
    exact ⟨hcnt, htail⟩
  · intro s op
    exact (applyTx_preserves s op).2.2.2.2

/-- Witness for C4: the first mint on a fresh deployment returns id 1. -/
theorem tokenId_monotonic_witness :
    (1 : Nat) = (initialState 1).tokenIdCounter + 1 ∧
    postMint1.tokenIdCounter = 1 ∧ (1 : Nat) ≠ 0 :=
  tokenId_monotonic.2.1 (initialState 1) 1 0 2 "C" "A" "H1" postMint1 1 rfl

/-- C5 counterexample: a duplicate-hash mint attempt with the zero
owner address fails with `InvalidInput`, not `AlreadyExists` — the
owner check of `_mintBase` precedes the dedup check, refuting the
claim for the case "with any owner". -/
theorem dup_hash_zero_owner_counterexample :
    postMint1.usedHashes "H1" = true ∧
    mintCertificate postMint1 1 0 0 "C2" "B" "H1" = .error .InvalidInput ∧
    Err.InvalidInput ≠ Err.AlreadyExists :=
  ⟨rfl, rfl, by decide⟩

/-- C5 amended: a successful mint registers its (necessarily nonempty)
hash; registration is permanent across any sequence of calls; and any
subsequent mint attempt using the same hash — through any of the five
mint variants, by an authorized minter while unpaused, with a nonzero
owner — fails with `AlreadyExists`, and the reverted transaction
changes no state.  (With a zero owner the attempt still fails and
changes no state, but with `InvalidInput`, since the owner check runs
first.) -/
theorem hash_dedup_amended :
    (∀ (s : CState) (c now : Nat) (d : Addr) (h : String)
      (ct : CertificateType) (s1 : CState) (tid : Nat),
      mintBase s c now d h ct = .ok (s1, tid) →
      s1.usedHashes h = true ∧ h ≠ "") ∧
    (∀ (s : CState) (ops : List Op) (h : String),
      s.usedHashes h = true → (execOps s ops).usedHashes h = true) ∧
    (∀ (s : CState) (c now : Nat) (st : Addr) (cn g h : String),
      s.roles .MINTER c = true → s.paused = false → st ≠ 0 → h ≠ "" →
      s.usedHashes h = true →
      mintCertificate s c now st cn g h = .error .AlreadyExists) ∧
    (∀ (s : CState) (c now : Nat) (st : Addr) (p : SemesterParams) (h : String),
      s.roles .MINTER c = true → s.paused = false → st ≠ 0 → h ≠ "" →
      s.usedHashes h = true →
      mintSemesterCertificate s c now st p h = .error .AlreadyExists) ∧
    (∀ (s : CState) (c now : Nat) (st : Addr) (t cat h : String)
      (vs : List Addr), s.roles .MINTER c = true → s.paused = false →
      st ≠ 0 → h ≠ "" → s.usedHashes h = true →
      mintAchievementCertificate s c now st t cat h vs = .error .AlreadyExists) ∧
    (∀ (s : CState) (c now : Nat) (st : Addr) (tpl : String)
      (fns fvs : List String) (h : String),
      s.roles .MINTER c = true → s.paused = false → st ≠ 0 → h ≠ "" →
      s.usedHashes h = true →
      mintCustomCertificate s c now st tpl fns fvs h = .error .AlreadyExists) ∧
    (∀ (s : CState) (c now : Nat) (sts : List Addr) (cns gs hs : List String)
      (x : String), x ∈ hs → s.usedHashes x = true →
      ∀ s1, mintCertificatesBatch s c now sts cns gs hs ≠ .ok s1) ∧
    (∀ (s : CState) (op : Op) (e : Err),
      stepState s op = .error e → applyTx s op = s) := by
  refine ⟨?_, ?_, ?_, ?_, ?_, ?_, ?_, ?_⟩
  · intro s c now d h ct s1 tid hok
    obtain ⟨_, h2, _, _, _, _, h7⟩ := mintBase_ok hok
    subst h7
    exact ⟨by simp [mintedState], h2⟩
  · intro s ops h hused
    exact (execOps_preserves s ops).1 h hused
  · intro s c now st cn g h hrole hpaused hst hh hused
    unfold mintCertificate mintBase
    simp [hrole, hpaused, hst, hh, hused]
  · intro s c now st p h hrole hpaused hst hh hused
    unfold mintSemesterCertificate mintBase
    by_cases huid : (s.usedUniqueIdentifiers p.serialNo ||
      s.usedUniqueIdentifiers p.memoNo) = true
    · simp [hrole, hpaused, huid]
    · simp [hrole, hpaused, huid, hst, hh, hused]
  · intro s c now st t cat h vs hrole hpaused hst hh hused
    unfold mintAchievementCertificate mintBase
    simp [hrole, hpaused, hst, hh, hused]
  · intro s c now st tpl fns fvs h hrole hpaused hst hh hused
    unfold mintCustomCertificate mintBase
    simp [hrole, hpaused, hst, hh, hused]
  · intro s c now sts cns gs hs x hmem hused s1 hok
    obtain ⟨_, _, _, _, _, _, hloop⟩ := mintCertificatesBatch_ok hok
    obtain ⟨_, _, _, _, hHs, _, _, _, _⟩ := mintBatchLoop_ok _ _ _ _ _ _ hloop
    rw [(hHs x hmem).2] at hused
    cases hused
  · intro s op e herr
    unfold applyTx
    rw [herr]

/-- Witness for the amended C5: after minting hash "H1", a second mint
of "H1" to a different (nonzero) owner fails with `AlreadyExists`. -/
theorem hash_dedup_amended_witness :
    mintCertificate postMint1 1 0 3 "C2" "B" "H1" = .error .AlreadyExists :=
  hash_dedup_amended.2.2.1 postMint1 1 0 3 "C2" "B" "H1" rfl rfl (by decide)
    (by decide) rfl

/-- C6: revocation is one-way.  A successful `revokeCertificate` sets
`isRevoked`; a second revocation of the same token by any admin fails
with `Revoked`; and after any further sequence of interface calls,
`verifyCertificate` still reports the token invalid — no operation
ever resets `isRevoked`. -/
theorem revocation_one_way :
    ∀ (s : CState) (c : Addr) (t : Nat) (s1 : CState),
    revokeCertificate s c t = .ok s1 →
    (s1.certConfigs t).isRevoked = true ∧
    (∀ c2, s1.roles .ADMIN c2 = true →
      revokeCertificate s1 c2 t = .error .Revoked) ∧
    (∀ ops : List Op, (verifyCertificate (execOps s1 ops) t).1 = false) := by
  intro s c t s1 hok
  obtain ⟨hrole, howner, hrev, h4⟩ := revokeCertificate_ok hok
  have hroles1 : s1.roles = s.roles := by rw [h4]
  have howners1 : s1.owners = s.owners := by rw [h4]
  have hconf : (s1.certConfigs t).isRevoked = true := by
    rw [h4]
    show (if t = t then { s.certConfigs t with isRevoked := true }
      else s.certConfigs t).isRevoked = true
    simp
  refine ⟨hconf, ?_, ?_⟩
  · intro c2 hrole2
    unfold revokeCertificate
    rw [if_neg (by simp [hrole2]), if_neg (by rw [howners1]; exact howner),
      if_pos (by exact hconf)]
  · intro ops
    obtain ⟨_, _, hown, hrevp, _⟩ := execOps_preserves s1 ops
    have howner1 : s1.owners t ≠ 0 := by rw [howners1]; exact howner
    have howner2 := hown t howner1
    have hrev2 := hrevp t howner1 hconf
    unfold verifyCertificate
    rw [if_neg howner2]
    simp [hrev2]

/-- Witness for C6 on the concrete revoked token 1. -/
theorem revocation_one_way_witness :
    (postRevoke1.certConfigs 1).isRevoked = true ∧
    revokeCertificate postRevoke1 1 1 = .error .Revoked ∧
    (verifyCertificate (execOps postRevoke1
      [.mintCertificate 1 0 3 "D" "B" "H2"]) 1).1 = false := by
  obtain ⟨w1, w2, w3⟩ := revocation_one_way postMint1 1 1 postRevoke1 rfl
  exact ⟨w1, w2 1 rfl, w3 [.mintCertificate 1 0 3 "D" "B" "H2"]⟩

/-- C7: `verifyCertificate` is a pure function of the state (the
Solidity function is `view`) taking no caller argument (no capability
check).  A nonexistent token yields `(false, "", REGULAR)`, a revoked
one `(false, "", certType)`, and an existing unrevoked one
`(true, storedReference, certType)`. -/
theorem verify_pure_read :
    ∀ (s : CState) (t : Nat),
    (s.owners t = 0 → verifyCertificate s t = (false, "", .REGULAR)) ∧
    (s.owners t ≠ 0 → (s.certConfigs t).isRevoked = true →
      verifyCertificate s t = (false, "", (s.certConfigs t).certType)) ∧
    (s.owners t ≠ 0 → (s.certConfigs t).isRevoked = false →
      verifyCertificate s t = (true, s.tokenURIs t, (s.certConfigs t).certType)) := by
  intro s t
  refine ⟨?_, ?_, ?_⟩
  · intro h0
    unfold verifyCertificate
    rw [if_pos h0]
  · intro h0 hr
    unfold verifyCertificate
    rw [if_neg h0]
    simp [hr]
  · intro h0 hr
    unfold verifyCertificate
    rw [if_neg h0]
    simp [hr]

/-- Witness for C7: a nonexistent token, and the live token 1 of
`postMint1`, evaluated concretely. -/
theorem verify_pure_read_witness :
    verifyCertificate (initialState 1) 7 = (false, "", .REGULAR) ∧
    verifyCertificate postMint1 1 =
      (true, postMint1.tokenURIs 1, (postMint1.certConfigs 1).certType) :=
  ⟨(verify_pure_read (initialState 1) 7).1 rfl,
   (verify_pure_read postMint1 1).2.2 (by decide) rfl⟩

/-- C8: semester certificates enforce serial/memo uniqueness.  If either
identifier is already registered the call (by an authorized minter on an
unpaused registry) fails with `AlreadyExists` and the transaction rolls
back; on success both identifiers are registered atomically with the
mint, so a second `mintSemesterCertificate` with the same `serialNo` —
any owner, any other parameters — fails with `AlreadyExists`. -/
theorem semester_unique_ids :
    (∀ (s : CState) (c now : Nat) (st : Addr) (p : SemesterParams) (h : String),
      s.roles .MINTER c = true → s.paused = false →
      (s.usedUniqueIdentifiers p.serialNo = true ∨
        s.usedUniqueIdentifiers p.memoNo = true) →
      mintSemesterCertificate s c now st p h = .error .AlreadyExists ∧
      applyTx s (.mintSemesterCertificate c now st p h) = s) ∧
    (∀ (s : CState) (c now : Nat) (st : Addr) (p : SemesterParams) (h : String)
      (s1 : CState) (tid : Nat),
      mintSemesterCertificate s c now st p h = .ok (s1, tid) →
      s1.usedUniqueIdentifiers p.serialNo = true ∧
      s1.usedUniqueIdentifiers p.memoNo = true) ∧
    (∀ (s : CState) (c now : Nat) (st : Addr) (p : SemesterParams) (h : String)
      (s1 : CState) (tid : Nat),
      mintSemesterCertificate s c now st p h = .ok (s1, tid) →
      ∀ (c2 now2 : Nat) (st2 : Addr) (p2 : SemesterParams) (h2 : String),
      p2.serialNo = p.serialNo → s1.roles .MINTER c2 = true →
      mintSemesterCertificate s1 c2 now2 st2 p2 h2 = .error .AlreadyExists) := by
  have hfail : ∀ (s : CState) (c now : Nat) (st : Addr) (p : SemesterParams)
      (h : String), s.roles .MINTER c = true → s.paused = false →
      (s.usedUniqueIdentifiers p.serialNo = true ∨
        s.usedUniqueIdentifiers p.memoNo = true) →
      mintSemesterCertificate s c now st p h = .error .AlreadyExists := by
    intro s c now st p h hrole hpaused huid
    unfold mintSemesterCertificate
    rw [if_neg (by simp [hrole]), if_neg (by simp [hpaused]),
      if_pos (by rcases huid with hu | hu <;> simp [hu])]
  have hreg : ∀ (s : CState) (c now : Nat) (st : Addr) (p : SemesterParams)
      (h : String) (s1 : CState) (tid : Nat),
      mintSemesterCertificate s c now st p h = .ok (s1, tid) →
      s1.usedUniqueIdentifiers p.serialNo = true ∧
      s1.usedUniqueIdentifiers p.memoNo = true := by
    intro s c now st p h s1 tid hok
    obtain ⟨_, _, _, _, _, _, _, _, _, h10⟩ := mintSemesterCertificate_ok hok
    constructor
    · rw [h10]
      show (if p.serialNo = p.serialNo then true else _) = true
      simp
    · rw [h10]
      show (if p.memoNo = p.serialNo then true
        else if p.memoNo = p.memoNo then true else _) = true
      by_cases hms : p.memoNo = p.serialNo <;> simp [hms]
  refine ⟨?_, hreg, ?_⟩
  · intro s c now st p h hrole hpaused huid
    have he := hfail s c now st p h hrole hpaused huid
    refine ⟨he, ?_⟩
    unfold applyTx
    simp [stepState, he, Except.map]
  · intro s c now st p h s1 tid hok c2 now2 st2 p2 h2 hserial hrole2
    have hpaused1 : s1.paused = false := by
      obtain ⟨_, hpaused, _, _, _, _, _, _, _, h10⟩ :=
        mintSemesterCertificate_ok hok
      rw [h10]
      exact hpaused
    have huid1 : s1.usedUniqueIdentifiers p2.serialNo = true := by
      rw [hserial]
      exact (hreg s c now st p h s1 tid hok).1
    exact hfail s1 c2 now2 st2 p2 h2 hrole2 hpaused1 (Or.inl huid1)

/-- Witness for C8: after minting semester certificate `sp1` (serial
"S1"), a second semester mint reusing serial "S1" for another owner
fails with `AlreadyExists`. -/
theorem semester_unique_ids_witness :
    postSem1.usedUniqueIdentifiers sp1.serialNo = true ∧
    mintSemesterCertificate postSem1 1 0 3 sp2 "H3" = .error .AlreadyExists :=
  ⟨(semester_unique_ids.2.1 (initialState 1) 1 0 2 sp1 "H2" postSem1 1 rfl).1,
   semester_unique_ids.2.2 (initialState 1) 1 0 2 sp1 "H2" postSem1 1 rfl
     1 0 3 sp2 "H3" rfl rfl⟩

/-- C9: `getStudentCertificates` is a pure read of the owner index.
On a fresh deployment every owner has the empty list; after any
sequence of interface calls the list for an owner is exactly the token
ids of the `CertificateIssued` events for that owner, oldest first —
i.e. insertion order, one entry per successful mint to that owner; and
a revocation transaction never changes the index. -/
theorem owner_index_insertion_order :
    (∀ (d : Addr) (o : Addr), getStudentCertificates (initialState d) o = []) ∧
    (∀ (d : Addr) (ops : List Op) (o : Addr),
      getStudentCertificates (execOps (initialState d) ops) o =
        issuedTo (execOps (initialState d) ops).log o) ∧
    (∀ (s : CState) (c : Addr) (t : Nat) (o : Addr),
      getStudentCertificates (applyTx s (.revokeCertificate c t)) o =
        getStudentCertificates s o) := by
  refine ⟨fun _ _ => rfl, ?_, ?_⟩
  · intro d ops o
    exact execOps_ownerIdx ops (initialState_ownerIdx d) o
  · intro s c t o
    unfold applyTx
    show getStudentCertificates
      (match stepState s (.revokeCertificate c t) with
        | .ok s1 => s1 | .error _ => s) o = getStudentCertificates s o
    cases hr : stepState s (.revokeCertificate c t) with
    | error e => rfl
    | ok s1 =>
        simp only [stepState] at hr
        obtain ⟨_, _, _, h4⟩ := revokeCertificate_ok hr
        rw [h4]
        rfl

/-- C10: `mintAchievementCertificate` ignores its `verifiers` argument.
Two calls identical except for the verifiers array produce identical
results: the same token id, the same registry state, and the same
event log. -/
theorem achievement_ignores_verifiers :
    ∀ (s : CState) (c now : Nat) (st : Addr) (title cat h : String)
      (v1 v2 : List Addr),
      mintAchievementCertificate s c now st title cat h v1 =
      mintAchievementCertificate s c now st title cat h v2 :=
  fun _ _ _ _ _ _ _ _ _ => rfl

end CertNFT
